import Mathlib

/-!
Verification development for the C-Thread-Pool-Derived repository
(src/src/threadpool.c).  The C source is shallowly embedded: each
mutex-protected critical section of the pool becomes one atomic step of an
executable transition system, the pure queue manipulation becomes pure
functions on a list abstraction of the singly linked job chain, and the
blocking paths of the sequential API functions are modelled by `Option`
results (`none` stands for a call that is still blocked on a condition
variable and therefore has not returned).  Machine integers that the code
keeps in `int` fields are modelled as `Int`.
-/

namespace ThreadPool

/-- Lifecycle states of a pool, from `enum thpool_state` in threadpool.c
(the `THPOOL_STATE_COUNT` sentinel is not a state and is omitted). -/
inductive TState where
  | UNBIND
  | ALIVE
  | SHUTTING_DOWN
  | SHUTDOWN
  | DESTROYING
  | DESTROYED
deriving DecidableEq, Repr

/-- The error numbers the library assigns to `errno`.  `EOTHER` stands for
any pthread error code forwarded verbatim (`errno = err`). -/
inductive Errno where
  | EINVAL
  | ECANCELED
  | ENOMEM
  | EOTHER
deriving DecidableEq, Repr

/-- The job queue, from `struct jobqueue`.  The singly linked chain of
`struct job` nodes reachable from `front` through the `prev` links up to
`rear` is abstracted as the list `jobs` (front first); a job is identified
by the numeric tag of its `arg`.  `len` and `max_len` are the stored `int`
fields. -/
structure jobqueue where
  jobs : List Nat
  len : Int
  max_len : Int
deriving DecidableEq, Repr

/-- Models `jobqueue_init`: `len = 0`, empty chain, and
`max_len = (max_len > 0) ? max_len : 0`. -/
def jobqueue_init (max_len : Int) : jobqueue :=
  { jobs := [], len := 0, max_len := if max_len > 0 then max_len else 0 }

/-- Models `jobqueue_push_unsafe`.  The C switch on the stored `len`:
for `len = 0` both `front` and `rear` are pointed at the new node (so the
represented chain is exactly `[newjob]`), otherwise the new node is hung
on `rear->prev` and becomes the new `rear` (append); then `len++`. -/
def jobqueue_push_raw (q : jobqueue) (newjob : Nat) : jobqueue :=
  if q.len = 0 then
    { q with jobs := [newjob], len := q.len + 1 }
  else
    { q with jobs := q.jobs ++ [newjob], len := q.len + 1 }

/-- Models `jobqueue_pull_unsafe`.  `job_p` is the `front` pointer (the
head of the chain, `none` for a null pointer).  The C switch on the stored
`len`: `0` leaves the queue untouched, `1` nulls `front`/`rear` and zeroes
`len`, otherwise `front = job_p->prev` (the chain loses its head) and
`len--`.  The pulled front pointer is returned in either case. -/
def jobqueue_pull_raw (q : jobqueue) : Option Nat × jobqueue :=
  let job_p := q.jobs.head?
  if q.len = 0 then (job_p, q)
  else if q.len = 1 then (job_p, { q with jobs := [], len := 0 })
  else (job_p, { q with jobs := q.jobs.tail, len := q.len - 1 })

/-- Models `jobqueue_clear_unsafe` / `jobqueue_destroy_unsafe`: the loop
pulls (and frees) jobs until `len` is zero and then resets `front`,
`rear` and `len`; the resulting queue is empty with `len = 0`. -/
def jobqueue_clear_raw (q : jobqueue) : jobqueue :=
  { q with jobs := [], len := 0 }

/-! ### A run model for the bare queue (claim C3)

Sequences of `jobqueue_push_unsafe` / `jobqueue_pull_unsafe` calls (as
they are issued under the queue mutex) with ghost logs of the pushed
arguments and of the successfully pulled results. -/

/-- One queue operation: a push of a given job, or a pull. -/
inductive QOp where
  | push (j : Nat)
  | pull
deriving DecidableEq, Repr

/-- Ghost-instrumented queue: the queue plus the ordered log of pushed
jobs and the ordered log of non-null pull results. -/
structure QTrace where
  q : jobqueue
  pushed : List Nat
  pulled : List Nat
deriving DecidableEq, Repr

/-- Apply one queue operation, logging it. -/
def qstep (t : QTrace) : QOp → QTrace
  | .push j =>
      { t with q := jobqueue_push_raw t.q j, pushed := t.pushed ++ [j] }
  | .pull =>
      let r := jobqueue_pull_raw t.q
      { t with q := r.2, pulled := t.pulled ++ r.1.toList }

/-- Run a sequence of queue operations from a starting trace. -/
def qrunFrom (t : QTrace) : List QOp → QTrace
  | [] => t
  | op :: ops => qrunFrom (qstep t op) ops

/-- Run a sequence of queue operations from a freshly initialized
(unbounded) queue with empty logs. -/
def qrun (ops : List QOp) : QTrace :=
  qrunFrom { q := jobqueue_init 0, pushed := [], pulled := [] } ops

/-- Well-formedness plus the FIFO bookkeeping invariant of a queue trace:
the stored `len` agrees with the chain length, and the pulled log followed
by the jobs still queued is exactly the pushed log. -/
def QInv (t : QTrace) : Prop :=
  t.q.len = (t.q.jobs.length : Int) ∧ t.pulled ++ t.q.jobs = t.pushed

theorem qinv_step (t : QTrace) (op : QOp) (h : QInv t) : QInv (qstep t op) := by
  obtain ⟨hlen, hfifo⟩ := h
  cases op with
  | push j =>
      by_cases h0 : t.q.len = 0
      · have hnil : t.q.jobs = [] := by
          cases hj : t.q.jobs with
          | nil => rfl
          | cons a l => rw [hj] at hlen; simp at hlen; omega
        refine ⟨?_, ?_⟩
        · simp [qstep, jobqueue_push_raw, h0, hnil]
        · simp only [qstep, jobqueue_push_raw, h0, if_true, if_pos]
          rw [hnil] at hfifo
          simpa using hfifo
      · refine ⟨?_, ?_⟩
        · simp [qstep, jobqueue_push_raw, h0]
          omega
        · simp only [qstep, jobqueue_push_raw, h0, if_false, if_neg, not_false_iff]
          simp [← List.append_assoc, hfifo]
  | pull =>
      cases hj : t.q.jobs with
      | nil =>
          have h0 : t.q.len = 0 := by rw [hj] at hlen; simpa using hlen
          rw [hj] at hfifo
          refine ⟨?_, ?_⟩
          · simp [qstep, jobqueue_pull_raw, h0, hj, hlen]
          · simp only [qstep, jobqueue_pull_raw, h0, hj, if_true, if_pos,
              List.head?_nil, Option.toList_none, List.append_nil]
            simpa using hfifo
      | cons x rest =>
          have h0 : ¬ t.q.len = 0 := by rw [hj] at hlen; simp at hlen; omega
          cases rest with
          | nil =>
              have h1 : t.q.len = 1 := by rw [hj] at hlen; simpa using hlen
              refine ⟨?_, ?_⟩
              · simp [qstep, jobqueue_pull_raw, h0, h1, hj]
              · simp [qstep, jobqueue_pull_raw, h0, h1, hj]
                rw [hj] at hfifo
                simpa using hfifo
          | cons y rest2 =>
              have h1 : ¬ t.q.len = 1 := by rw [hj] at hlen; simp at hlen; omega
              refine ⟨?_, ?_⟩
              · simp [qstep, jobqueue_pull_raw, h0, h1, hj]
                rw [hj] at hlen
                simp at hlen
                omega
              · simp [qstep, jobqueue_pull_raw, h0, h1, hj]
                rw [hj] at hfifo
                rw [← hfifo]

theorem qinv_runFrom (ops : List QOp) (t : QTrace) (h : QInv t) :
    QInv (qrunFrom t ops) := by
  induction ops generalizing t with
  | nil => exact h
  | cons op ops ih => exact ih (qstep t op) (qinv_step t op h)

/-- Claim C3: the job queue under `jobqueue_push_unsafe` (append at rear)
and `jobqueue_pull_unsafe` (remove at front) is FIFO.  For every sequence
of push and pull operations from the initial queue, the log of pulled jobs
followed by the jobs still in the queue equals the log of pushed jobs, and
consequently the pulled log is an initial segment of the pushed log: the
k-th successful pull returns the k-th pushed job, so a job enqueued
earlier is always dequeued earlier. -/
theorem jobqueue_fifo (ops : List QOp) :
    (qrun ops).pulled ++ (qrun ops).q.jobs = (qrun ops).pushed ∧
    (qrun ops).pulled = (qrun ops).pushed.take (qrun ops).pulled.length := by
  have h : QInv (qrun ops) := by
    apply qinv_runFrom
    constructor <;> simp [jobqueue_init]
  obtain ⟨_, hfifo⟩ := h
  refine ⟨hfifo, ?_⟩
  rw [← hfifo, List.take_left]

/-! ### Sequential function models of the pool operations

Each function below is translated from the corresponding C function.  The
pool state collects the fields of `struct thpool` these functions touch;
the passport is `struct conc_state_block`.  A function that can block on a
condition variable (or in a polling loop) returns `Option`: `none` means
the call is blocked and has not returned; resolving such a block depends
on other threads and is handled by the transition system further below.
The only blocking wait resolved inside a function model is the worker join
in `thpool_shutdown_safe_inner` (the poll on `num_threads_alive`), which
always terminates because `threads_keepalive = false` makes every worker
leave its loop; it is modelled by setting `alive` to `0`. -/

/-- The fields of `struct thpool` used by the modelled operations:
the job queue, `threads_keepalive`, `threads_active`,
`num_threads_working` and `num_threads_alive`. -/
structure Pool where
  q : jobqueue
  keepalive : Bool
  active : Bool
  working : Int
  alive : Int
deriving DecidableEq, Repr

/-- The passport, `struct conc_state_block`: the lifecycle state and the
in-flight API-use counter. -/
structure Passport where
  state : TState
  apiUse : Int
deriving DecidableEq, Repr

/-- Atomic accesses a gated operation performs on the passport counter
`num_api_use`; the trace of these is recorded so that theorems can talk
about whether an operation uses the counter at all. -/
inductive PEv where
  | incUse
  | decUse
deriving DecidableEq, Repr

/-- Result of a completed `*_safe_inner` call: the return value, the
`errno` value set by the call (if any), the pool and passport afterwards,
and the trace of `num_api_use` accesses performed. -/
structure GR where
  ret : Int
  err : Option Errno
  pool : Pool
  pp : Passport
  tr : List PEv
deriving DecidableEq, Repr

/-- Models `thpool_put_job`.  On entry (under the queue mutex) the loop
blocks while `keepalive` holds and the pool is inactive or the bounded
queue is full (`none`); with `keepalive` false the job is not enqueued and
the call fails with `ECANCELED`; otherwise the job is pushed (the 0-to-1
broadcast of `get_job_unblock` has no effect on this state). -/
def thpool_put_job (s : Pool) (newjob : Nat) : Option (Int × Option Errno × Pool) :=
  if s.keepalive = false then
    some (-1, some .ECANCELED, s)
  else if s.active ∧ (s.q.max_len = 0 ∨ s.q.len < s.q.max_len) then
    some (0, none, { s with q := jobqueue_push_raw s.q newjob })
  else
    none

/-- Models `thpool_get_job`.  The loop blocks while `keepalive` holds and
the queue is empty or the pool is inactive (`none`); with `keepalive`
false the call returns a null job with `ECANCELED` and the queue is left
unchanged; otherwise the front job is pulled (the full-to-nonfull
broadcast of `put_job_unblock` has no effect on this state). -/
def thpool_get_job (s : Pool) : Option (Option Nat × Option Errno × Pool) :=
  if s.keepalive = false then
    some (none, some .ECANCELED, s)
  else if ¬ s.q.len = 0 ∧ s.active then
    let r := jobqueue_pull_raw s.q
    some (r.1, none, { s with q := r.2 })
  else
    none

/-- Models `thpool_wait_inner`.  `isOwner` is the result of
`thpool_is_current_thread_owner` (the TSD slot for the pool key equals the
pool pointer).  An owner thread is rejected with `EINVAL` before any state
change.  Otherwise the loop reads `jobqueue.len` and
`num_threads_working` under the queue mutex: if both are zero it stores
`threads_active = false` and returns `0`, else it waits on
`threads_all_idle` (`none`). -/
def thpool_wait_inner (isOwner : Bool) (s : Pool) : Option (Int × Option Errno × Pool) :=
  if isOwner then
    some (-1, some .EINVAL, s)
  else if s.q.len = 0 ∧ s.working = 0 then
    some (0, none, { s with active := false })
  else
    none

/-- Models `thpool_reactivate_inner`: under the queue mutex, store
`threads_active = true`, broadcast both queue condition variables, return
`0`. -/
def thpool_reactivate_inner (s : Pool) : Int × Option Errno × Pool :=
  (0, none, { s with active := true })

/-- Models `thpool_num_threads_working_inner`: return the atomic load of
`num_threads_working`. -/
def thpool_num_threads_working_inner (s : Pool) : Int × Option Errno × Pool :=
  (s.working, none, s)

/-- Models the macro `DEFINE_THPOOL_EASY_API_SAFE_INNER`: increment
`num_api_use`, load the passport state, run the inner operation only in
`THPOOL_ALIVE` (otherwise set `EINVAL` and return `-1`), decrement
`num_api_use`, return the inner result. -/
def easy_api_safe_inner (inner : Pool → Option (Int × Option Errno × Pool))
    (s : Pool) (pp : Passport) : Option GR :=
  let pp1 : Passport := { pp with apiUse := pp.apiUse + 1 }
  if pp1.state = .ALIVE then
    match inner s with
    | some (r, e, s') =>
        some ⟨r, e, s', { pp1 with apiUse := pp1.apiUse - 1 }, [.incUse, .decUse]⟩
    | none => none
  else
    some ⟨-1, some .EINVAL, s, { pp1 with apiUse := pp1.apiUse - 1 }, [.incUse, .decUse]⟩

/-- Models `thpool_wait_safe_inner` (the macro instantiated at
`thpool_wait_inner`). -/
def thpool_wait_safe_inner (isOwner : Bool) (s : Pool) (pp : Passport) : Option GR :=
  easy_api_safe_inner (thpool_wait_inner isOwner) s pp

/-- Models `thpool_reactivate_safe_inner`. -/
def thpool_reactivate_safe_inner (s : Pool) (pp : Passport) : Option GR :=
  easy_api_safe_inner (fun s => some (thpool_reactivate_inner s)) s pp

/-- Models `thpool_num_threads_working_safe_inner`. -/
def thpool_num_threads_working_safe_inner (s : Pool) (pp : Passport) : Option GR :=
  easy_api_safe_inner (fun s => some (thpool_num_threads_working_inner s)) s pp

/-- Models `thpool_add_work_inner`: allocate the job node (`mallocOk`
tells whether `malloc` succeeds; on failure the call returns `-1` with
the allocator errno) and hand it to `thpool_put_job`. -/
def thpool_add_work_inner (mallocOk : Bool) (newjob : Nat) (s : Pool) :
    Option (Int × Option Errno × Pool) :=
  if mallocOk then thpool_put_job s newjob
  else some (-1, some .ENOMEM, s)

/-- Models `thpool_add_work_safe_inner`, which is written out in the
source but has exactly the gate shape of the easy-API macro. -/
def thpool_add_work_safe_inner (mallocOk : Bool) (newjob : Nat)
    (s : Pool) (pp : Passport) : Option GR :=
  easy_api_safe_inner (thpool_add_work_inner mallocOk newjob) s pp

/-- Models `thpool_shutdown_safe_inner`.  An owner thread is rejected with
`EINVAL`.  The strong CAS `ALIVE -> SHUTTING_DOWN` fails with `EINVAL`
whenever the state is not `ALIVE`.  On success the call stores
`threads_keepalive = false` and `threads_active = false`, broadcasts both
queue condition variables, polls until `num_threads_alive` is `0` (always
reached, modelled by `alive := 0`), polls until `num_api_use` is `0`
(blocked, `none`, while other API calls are in flight), destroys the
queue contents under the queue mutex, and CASes
`SHUTTING_DOWN -> SHUTDOWN`.  The counter `num_api_use` is never
incremented or decremented by this function, so the trace is empty. -/
def thpool_shutdown_safe_inner (isOwner : Bool) (s : Pool) (pp : Passport) : Option GR :=
  if isOwner then
    some ⟨-1, some .EINVAL, s, pp, []⟩
  else if pp.state = .ALIVE then
    if pp.apiUse = 0 then
      some ⟨0, none,
        { s with keepalive := false, active := false, alive := 0,
                 q := jobqueue_clear_raw s.q },
        { pp with state := .SHUTDOWN }, []⟩
    else
      none
  else
    some ⟨-1, some .EINVAL, s, pp, []⟩

/-- Result of `thpool_destroy_safe_inner`: return value, errno, the pool
afterwards (`none` when the pool structure has been freed) and the
passport afterwards. -/
structure DR where
  ret : Int
  err : Option Errno
  pool : Option Pool
  pp : Passport
deriving DecidableEq, Repr

/-- Models `thpool_destroy_safe_inner`.  An owner thread is rejected with
`EINVAL`.  The CAS loop on the passport state: from `SHUTDOWN` the pool
resources are freed and the state moves through `DESTROYING` to
`DESTROYED`; from `ALIVE` an automatic shutdown is attempted first (with a
warning) and the loop retries; from `SHUTTING_DOWN` the call sleeps and
retries (blocked, `none`, until the concurrent shutdown finishes); any
other state is rejected with `EINVAL`. -/
def thpool_destroy_safe_inner (isOwner : Bool) (s : Pool) (pp : Passport) : Option DR :=
  if isOwner then
    some ⟨-1, some .EINVAL, some s, pp⟩
  else
    match pp.state with
    | .SHUTDOWN => some ⟨0, none, none, { pp with state := .DESTROYED }⟩
    | .ALIVE =>
        match thpool_shutdown_safe_inner isOwner s pp with
        | some r =>
            if r.pp.state = .SHUTDOWN then
              some ⟨0, none, none, { r.pp with state := .DESTROYED }⟩
            else
              none
        | none => none
    | .SHUTTING_DOWN => none
    | _ => some ⟨-1, some .EINVAL, some s, pp⟩

/-! ### Public API entry points (null-handle checks, claim C10)

`DEFINE_THPOOL_EASY_API` and `thpool_add_work` check the pool handle for
null (`none`) before dereferencing it for its passport; a null handle is
rejected with `EINVAL` and nothing else is touched.  A non-null handle
carries the owner flag of the calling thread, the pool state and the
passport the pool points to. -/

/-- Models the public `thpool_wait`. -/
def thpool_wait (h : Option (Bool × Pool × Passport)) :
    Option (Int × Option Errno × Option (Pool × Passport)) :=
  match h with
  | none => some (-1, some .EINVAL, none)
  | some (own, s, pp) =>
      (thpool_wait_safe_inner own s pp).map (fun r => (r.ret, r.err, some (r.pool, r.pp)))

/-- Models the public `thpool_reactivate`. -/
def thpool_reactivate (h : Option (Bool × Pool × Passport)) :
    Option (Int × Option Errno × Option (Pool × Passport)) :=
  match h with
  | none => some (-1, some .EINVAL, none)
  | some (_, s, pp) =>
      (thpool_reactivate_safe_inner s pp).map (fun r => (r.ret, r.err, some (r.pool, r.pp)))

/-- Models the public `thpool_num_threads_working`. -/
def thpool_num_threads_working (h : Option (Bool × Pool × Passport)) :
    Option (Int × Option Errno × Option (Pool × Passport)) :=
  match h with
  | none => some (-1, some .EINVAL, none)
  | some (_, s, pp) =>
      (thpool_num_threads_working_safe_inner s pp).map
        (fun r => (r.ret, r.err, some (r.pool, r.pp)))

/-- Models the public `thpool_shutdown`. -/
def thpool_shutdown (h : Option (Bool × Pool × Passport)) :
    Option (Int × Option Errno × Option (Pool × Passport)) :=
  match h with
  | none => some (-1, some .EINVAL, none)
  | some (own, s, pp) =>
      (thpool_shutdown_safe_inner own s pp).map (fun r => (r.ret, r.err, some (r.pool, r.pp)))

/-- Models the public `thpool_destroy`. -/
def thpool_destroy (h : Option (Bool × Pool × Passport)) :
    Option (Int × Option Errno × Option (Option Pool × Passport)) :=
  match h with
  | none => some (-1, some .EINVAL, none)
  | some (own, s, pp) =>
      (thpool_destroy_safe_inner own s pp).map (fun r => (r.ret, r.err, some (r.pool, r.pp)))

/-- Models the public `thpool_add_work`. -/
def thpool_add_work (h : Option (Bool × Pool × Passport)) (mallocOk : Bool) (newjob : Nat) :
    Option (Int × Option Errno × Option (Pool × Passport)) :=
  match h with
  | none => some (-1, some .EINVAL, none)
  | some (_, s, pp) =>
      (thpool_add_work_safe_inner mallocOk newjob s pp).map
        (fun r => (r.ret, r.err, some (r.pool, r.pp)))

/-! ### Interleaving transition system (claims C1, C2, C4)

The synchronization core coordinates submitter threads, worker threads
and lifecycle callers through the queue mutex, two queue condition
variables, the idle mutex and a handful of atomics.  Every
mutex-protected critical section (and every lone atomic read-modify-write)
of the C code becomes one atomic step here, and steps of different
threads interleave freely.  Ghost logs record every job accepted by a
successful `thpool_put_job`, every job whose task function has been
invoked by `thread_do`, and every job destroyed unexecuted by the queue
drain in `thpool_shutdown_safe_inner`. -/

/-- The phase of one worker thread inside `thread_do`:
`idle` — at the top of the loop or inside `thpool_get_job`;
`pulled j` — `thpool_get_job` returned job `j`, the
`num_threads_working` increment has not happened yet;
`running j` — between the increment and the decrement, the task
function runs here;
`exited` — the loop has been left and `num_threads_alive` was
decremented. -/
inductive WState where
  | idle
  | pulled (j : Nat)
  | running (j : Nat)
  | exited
deriving DecidableEq, Repr

/-- The job a worker currently holds, if any. -/
def heldOf : WState → Option Nat
  | .pulled j => some j
  | .running j => some j
  | _ => none

/-- All jobs currently held by workers (pulled or running). -/
def held (ws : List WState) : List Nat :=
  ws.filterMap heldOf

/-- Global state of the interleaving model: the pool fields shared
between threads, the per-worker phases, and the ghost logs. -/
structure Sys where
  q : jobqueue
  keepalive : Bool
  active : Bool
  working : Int
  pstate : TState
  ws : List WState
  accepted : List Nat
  executed : List Nat
  discarded : List Nat
deriving DecidableEq, Repr

/-- The events of the interleaving model, one per critical section. -/
inductive Ev where
  | putOk (j : Nat)
  | getOk (w : Nat)
  | startWork (w : Nat)
  | finishWork (w : Nat)
  | workerExit (w : Nat)
  | waitRet
  | reactivate
  | shutdownStart
  | shutdownFinish
deriving DecidableEq, Repr

/-- One atomic step; `none` when the event is not enabled in this state.

`putOk j` — the critical section of a `thpool_put_job` that pushes: the
call passed the `THPOOL_ALIVE` gate of `thpool_add_work_safe_inner`, and
at the final mutex acquisition `threads_keepalive` held and the pool was
active with room in the queue, so the freshly allocated job `j` is
pushed (freshness of the allocation is the guard `j ∉ accepted`).

`getOk w` — the critical section of a `thpool_get_job` of worker `w`
that pulls: `threads_keepalive` held and the queue was nonempty and
active.

`startWork w` — the lone `num_threads_working` increment in `thread_do`.

`finishWork w` — the task function invocation, the free of the job node
and the `num_threads_working` decrement (with the possible all-idle
broadcast).

`workerExit w` — worker `w` observes `threads_keepalive = false` at the
loop top (directly or via a null job from `thpool_get_job`), runs its end
callback and decrements `num_threads_alive`.

`waitRet` — the final loop iteration of a `thpool_wait_inner` that
returns `0` (the caller passed the `ALIVE` gate): under the queue mutex
`jobqueue.len` and `num_threads_working` both read zero, so
`threads_active := false` and the call returns.

`reactivate` — a gated `thpool_reactivate_inner`.

`shutdownStart` — the head of `thpool_shutdown_safe_inner`: the strong
CAS `ALIVE -> SHUTTING_DOWN` succeeded, then `threads_keepalive := false`
and `threads_active := false` with the broadcasts.

`shutdownFinish` — the tail of `thpool_shutdown_safe_inner`: the polls
saw `num_threads_alive = 0` (all workers exited), the queue contents are
destroyed unexecuted, and the CAS `SHUTTING_DOWN -> SHUTDOWN` lands. -/
def sysStep (s : Sys) : Ev → Option Sys
  | .putOk j =>
      if s.pstate = .ALIVE ∧ s.keepalive = true ∧ s.active = true ∧
          (s.q.max_len = 0 ∨ s.q.len < s.q.max_len) ∧ j ∉ s.accepted then
        some { s with q := jobqueue_push_raw s.q j, accepted := s.accepted ++ [j] }
      else
        none
  | .getOk w =>
      match s.ws.get? w with
      | some .idle =>
          if s.keepalive = true ∧ s.active = true ∧ ¬ s.q.len = 0 then
            match jobqueue_pull_raw s.q with
            | (some j, q') => some { s with q := q', ws := s.ws.set w (.pulled j) }
            | (none, _) => none
          else
            none
      | _ => none
  | .startWork w =>
      match s.ws.get? w with
      | some (.pulled j) =>
          some { s with ws := s.ws.set w (.running j), working := s.working + 1 }
      | _ => none
  | .finishWork w =>
      match s.ws.get? w with
      | some (.running j) =>
          some { s with ws := s.ws.set w .idle, working := s.working - 1,
                        executed := s.executed ++ [j] }
      | _ => none
  | .workerExit w =>
      match s.ws.get? w with
      | some .idle =>
          if s.keepalive = false then some { s with ws := s.ws.set w .exited } else none
      | _ => none
  | .waitRet =>
      if s.pstate = .ALIVE ∧ s.q.len = 0 ∧ s.working = 0 then
        some { s with active := false }
      else
        none
  | .reactivate =>
      if s.pstate = .ALIVE then some { s with active := true } else none
  | .shutdownStart =>
      if s.pstate = .ALIVE then
        some { s with pstate := .SHUTTING_DOWN, keepalive := false, active := false }
      else
        none
  | .shutdownFinish =>
      if s.pstate = .SHUTTING_DOWN ∧ s.ws.all (· = .exited) then
        some { s with discarded := s.discarded ++ s.q.jobs,
                      q := jobqueue_clear_raw s.q, pstate := .SHUTDOWN }
      else
        none

/-- Run a list of events from a state; fails if any event is disabled. -/
def runSys (s : Sys) : List Ev → Option Sys
  | [] => some s
  | e :: es => (sysStep s e).bind (fun s' => runSys s' es)

/-- The initial state after a successful `thpool_init` with `n` created
worker threads and configured queue bound `ml`: queue initialized by
`jobqueue_init`, `threads_keepalive` and `threads_active` true, no worker
working, passport `ALIVE`, all workers in their loop, empty logs. -/
def initSys (n : Nat) (ml : Int) : Sys :=
  { q := jobqueue_init ml, keepalive := true, active := true, working := 0,
    pstate := .ALIVE, ws := List.replicate n .idle,
    accepted := [], executed := [], discarded := [] }

/-! ### Helper lemmas about the queue primitives and worker lists -/

theorem push_wf (q : jobqueue) (j : Nat) (hwf : q.len = (q.jobs.length : Int)) :
    (jobqueue_push_raw q j).jobs = q.jobs ++ [j] ∧
    (jobqueue_push_raw q j).len = ((q.jobs.length + 1 : Nat) : Int) ∧
    (jobqueue_push_raw q j).max_len = q.max_len := by
  unfold jobqueue_push_raw
  by_cases h0 : q.len = 0
  · have : q.jobs = [] := by
      cases hj : q.jobs with
      | nil => rfl
      | cons a l => rw [hj] at hwf; simp at hwf; omega
    simp [h0, this]
  · simp [h0]
    omega

theorem pull_wf (q : jobqueue) (hwf : q.len = (q.jobs.length : Int)) (h0 : ¬ q.len = 0) :
    (jobqueue_pull_raw q).1 = q.jobs.head? ∧
    (jobqueue_pull_raw q).2.jobs = q.jobs.tail ∧
    (jobqueue_pull_raw q).2.len = (q.jobs.tail.length : Int) ∧
    (jobqueue_pull_raw q).2.max_len = q.max_len := by
  unfold jobqueue_pull_raw
  by_cases h1 : q.len = 1
  · have : q.jobs.length = 1 := by omega
    cases hj : q.jobs with
    | nil => rw [hj] at this; simp at this
    | cons a l =>
        rw [hj] at this
        simp at this
        simp [h0, h1, hj, this]
  · have h2 : 2 ≤ q.jobs.length := by omega
    simp [h0, h1]
    omega

theorem pull_bounds (q : jobqueue) (h0 : 0 ≤ q.len) :
    0 ≤ (jobqueue_pull_raw q).2.len ∧ (jobqueue_pull_raw q).2.len ≤ q.len ∧
    (jobqueue_pull_raw q).2.max_len = q.max_len := by
  unfold jobqueue_pull_raw
  split_ifs <;> simp <;> omega

theorem push_bounds (q : jobqueue) :
    (jobqueue_push_raw q j).len = q.len + 1 ∧
    (jobqueue_push_raw q j).max_len = q.max_len := by
  unfold jobqueue_push_raw
  split_ifs <;> simp

theorem list_decomp_of_get {α : Type} (ws : List α) (w : Nat) (a b : α)
    (h : ws.get? w = some a) :
    ws = ws.take w ++ a :: ws.drop (w + 1) ∧
    ws.set w b = ws.take w ++ b :: ws.drop (w + 1) := by
  induction ws generalizing w with
  | nil => simp at h
  | cons x xs ih =>
      cases w with
      | zero =>
          simp only [List.get?_cons_zero, Option.some_inj] at h
          subst h
          simp
      | succ w =>
          have h' : xs.get? w = some a := by simpa using h
          obtain ⟨h1, h2⟩ := ih w h'
          refine ⟨?_, ?_⟩
          · simp only [List.take_succ_cons, List.drop_succ_cons, List.cons_append]
            exact congrArg (List.cons x) h1
          · simp only [List.set_cons_succ, List.take_succ_cons, List.drop_succ_cons,
              List.cons_append]
            exact congrArg (List.cons x) h2

theorem count_filterMap_set {α β : Type} [DecidableEq β] (f : α → Option β)
    (ws : List α) (w : Nat) (a b : α) (h : ws.get? w = some a) (x : β) :
    ((ws.set w b).filterMap f).count x + ((f a).toList).count x
      = (ws.filterMap f).count x + ((f b).toList).count x := by
  obtain ⟨h1, h2⟩ := list_decomp_of_get ws w a b h
  rw [h2]
  conv_rhs => rw [h1]
  cases hfa : f a <;> cases hfb : f b <;>
    simp [List.filterMap_append, List.filterMap_cons, hfa, hfb, List.count_append,
      List.count_cons] <;>
    omega

theorem held_nil_of_all_exited (ws : List WState)
    (h : ws.all (· = .exited) = true) : held ws = [] := by
  induction ws with
  | nil => rfl
  | cons a l ih =>
      simp only [List.all_cons, Bool.and_eq_true, decide_eq_true_eq] at h
      obtain ⟨ha, hl⟩ := h
      subst ha
      simp only [held, List.filterMap_cons, heldOf]
      exact ih hl

/-! ### Invariant for the queue bound (claim C4) -/

/-- Bound invariant: `len` is nonnegative, `max_len` is nonnegative, and a
positive bound is respected. -/
def InvB (s : Sys) : Prop :=
  0 ≤ s.q.len ∧ 0 ≤ s.q.max_len ∧ (0 < s.q.max_len → s.q.len ≤ s.q.max_len)

theorem invB_step (s s' : Sys) (e : Ev) (h : sysStep s e = some s')
    (hi : InvB s) : InvB s' := by
  obtain ⟨h0, h1, h2⟩ := hi
  cases e with
  | putOk j =>
      simp only [sysStep] at h
      split at h
      case isTrue hc =>
        cases h
        obtain ⟨hl, hm⟩ := push_bounds (q := s.q) (j := j)
        obtain ⟨_, _, _, hfull, _⟩ := hc
        refine ⟨?_, ?_, ?_⟩ <;> simp [hl, hm] <;> omega
      case isFalse => exact absurd h (by simp)
  | getOk w =>
      simp only [sysStep] at h
      cases hw : s.ws.get? w with
      | none => rw [hw] at h; simp at h
      | some wst =>
          rw [hw] at h
          cases wst with
          | pulled j2 => simp at h
          | running j2 => simp at h
          | exited => simp at h
          | idle =>
            by_cases hc : s.keepalive = true ∧ s.active = true ∧ ¬ s.q.len = 0
            · rw [if_pos hc] at h
              cases hp : jobqueue_pull_raw s.q with
              | mk r q2 =>
                  rw [hp] at h
                  cases r with
                  | none => simp at h
                  | some j =>
                      simp only at h
                      cases h
                      obtain ⟨hb0, hb1, hb2⟩ := pull_bounds s.q h0
                      rw [hp] at hb0 hb1 hb2
                      simp only at hb0 hb1 hb2
                      exact ⟨hb0, by rw [hb2]; exact h1, fun hpos => by
                        rw [hb2] at hpos ⊢
                        exact le_trans hb1 (h2 hpos)⟩
            · rw [if_neg hc] at h
              simp at h
  | startWork w =>
      simp only [sysStep] at h
      cases hw : s.ws.get? w with
      | none => rw [hw] at h; simp at h
      | some wst =>
          rw [hw] at h
          cases wst with
          | idle => simp at h
          | running j2 => simp at h
          | exited => simp at h
          | pulled j =>
            cases h
            exact ⟨h0, h1, h2⟩
  | finishWork w =>
      simp only [sysStep] at h
      cases hw : s.ws.get? w with
      | none => rw [hw] at h; simp at h
      | some wst =>
          rw [hw] at h
          cases wst with
          | idle => simp at h
          | pulled j2 => simp at h
          | exited => simp at h
          | running j =>
            cases h
            exact ⟨h0, h1, h2⟩
  | workerExit w =>
      simp only [sysStep] at h
      cases hw : s.ws.get? w with
      | none => rw [hw] at h; simp at h
      | some wst =>
          rw [hw] at h
          cases wst with
          | pulled j2 => simp at h
          | running j2 => simp at h
          | exited => simp at h
          | idle =>
            by_cases hc : s.keepalive = false
            · rw [if_pos hc] at h
              cases h
              exact ⟨h0, h1, h2⟩
            · rw [if_neg hc] at h
              simp at h
  | waitRet =>
      simp only [sysStep] at h
      split at h
      case isTrue => cases h; exact ⟨h0, h1, h2⟩
      case isFalse => exact absurd h (by simp)
  | reactivate =>
      simp only [sysStep] at h
      split at h
      case isTrue => cases h; exact ⟨h0, h1, h2⟩
      case isFalse => exact absurd h (by simp)
  | shutdownStart =>
      simp only [sysStep] at h
      split at h
      case isTrue => cases h; exact ⟨h0, h1, h2⟩
      case isFalse => exact absurd h (by simp)
  | shutdownFinish =>
      simp only [sysStep] at h
      split at h
      case isTrue =>
        cases h
        refine ⟨?_, ?_, ?_⟩ <;> simp [jobqueue_clear_raw] <;> omega
      case isFalse => exact absurd h (by simp)

theorem invB_run (evs : List Ev) (s s' : Sys) (h : runSys s evs = some s')
    (hi : InvB s) : InvB s' := by
  induction evs generalizing s with
  | nil => simp only [runSys, Option.some_inj] at h; cases h; exact hi
  | cons e es ih =>
      simp only [runSys] at h
      cases hs : sysStep s e with
      | none => rw [hs] at h; simp at h
      | some s1 =>
          rw [hs] at h
          simp only [Option.some_bind] at h
          exact ih s1 h (invB_step s s1 e hs hi)

/-! ### Accounting invariant (claim C1) -/

/-- How many copies of job `j` the system currently holds, across the
queue, the hands of the workers, the executed log and the discarded
log. -/
def cnt (s : Sys) (j : Nat) : Nat :=
  s.q.jobs.count j + (held s.ws).count j + s.executed.count j + s.discarded.count j

/-- Accounting invariant: the stored queue length is exact, the keepalive
flag mirrors the `ALIVE` lifecycle state, every accepted job exists in
exactly one place (queue, worker hand, executed log or discarded log) and
only accepted jobs exist anywhere, accepted jobs are pairwise distinct,
and once the state is `SHUTDOWN` the queue is empty and every worker has
exited. -/
def InvA (s : Sys) : Prop :=
  s.q.len = (s.q.jobs.length : Int) ∧
  (s.keepalive = true ↔ s.pstate = .ALIVE) ∧
  (∀ j, cnt s j = s.accepted.count j) ∧
  s.accepted.Nodup ∧
  (s.pstate = .SHUTDOWN → s.q.jobs = [] ∧ s.ws.all (· = .exited) = true)

theorem invA_step (s s' : Sys) (e : Ev) (h : sysStep s e = some s')
    (hi : InvA s) : InvA s' := by
  obtain ⟨hwf, hka, hcnt, hnd, hsd⟩ := hi
  cases e with
  | putOk j =>
      simp only [sysStep] at h
      split at h
      case isFalse => exact absurd h (by simp)
      case isTrue hc =>
        cases h
        obtain ⟨halive, _, _, _, hfresh⟩ := hc
        obtain ⟨hjobs, hlen, _⟩ := push_wf s.q j hwf
        refine ⟨?_, ?_, ?_, ?_, ?_⟩
        · simp only [hlen, hjobs]
          simp
        · exact hka
        · intro x
          have := hcnt x
          simp only [cnt, hjobs, List.count_append] at *
          omega
        · simp only [List.nodup_append, List.nodup_singleton, true_and]
          refine ⟨hnd, ?_⟩
          intro a ha hb
          simp only [List.mem_singleton] at hb
          subst hb
          exact hfresh ha
        · intro hbad
          rw [halive] at hbad
          cases hbad
  | getOk w =>
      simp only [sysStep] at h
      cases hw : s.ws.get? w with
      | none => rw [hw] at h; simp at h
      | some wst =>
          rw [hw] at h
          cases wst with
          | pulled j2 => simp at h
          | running j2 => simp at h
          | exited => simp at h
          | idle =>
            by_cases hc : s.keepalive = true ∧ s.active = true ∧ ¬ s.q.len = 0
            · rw [if_pos hc] at h
              obtain ⟨hkeep, _, hne⟩ := hc
              obtain ⟨hr, hjobs, hlen, _⟩ := pull_wf s.q hwf hne
              have hjobsne : ¬ s.q.jobs = [] := by
                intro hnil
                rw [hnil] at hwf
                simp at hwf
                omega
              obtain ⟨jhd, rest, hcons⟩ : ∃ jhd rest, s.q.jobs = jhd :: rest := by
                cases hj : s.q.jobs with
                | nil => exact absurd hj hjobsne
                | cons a l => exact ⟨a, l, rfl⟩
              cases hp : jobqueue_pull_raw s.q with
              | mk r q2 =>
                  rw [hp] at h
                  rw [hp] at hr hjobs hlen
                  simp only at hr hjobs hlen
                  rw [hcons] at hr
                  simp only [List.head?_cons] at hr
                  cases r with
                  | none => cases hr
                  | some j =>
                      simp only [Option.some_inj] at hr
                      subst hr
                      simp only at h
                      cases h
                      have hheld := count_filterMap_set heldOf s.ws w .idle (.pulled j) hw
                      refine ⟨?_, hka, ?_, hnd, ?_⟩
                      · simp only [hjobs, hlen]
                      · intro x
                        have h1 := hcnt x
                        have h2 := hheld x
                        simp only [cnt, heldOf, Option.toList_none, Option.toList_some] at *
                        rw [hjobs, hcons] at *
                        simp only [List.count_cons, List.count_nil, List.tail_cons] at *
                        by_cases hx : x = j <;> simp [hx, held] at * <;> omega
                      · intro hbad
                        have := (hsd hbad).2
                        rw [hbad] at hka
                        have : ¬ s.keepalive = true := by
                          intro hk
                          cases hka.mp hk
                        exact absurd hkeep this
            · rw [if_neg hc] at h
              simp at h
  | startWork w =>
      simp only [sysStep] at h
      cases hw : s.ws.get? w with
      | none => rw [hw] at h; simp at h
      | some wst =>
          rw [hw] at h
          cases wst with
          | idle => simp at h
          | running j2 => simp at h
          | exited => simp at h
          | pulled j =>
            cases h
            have hheld := count_filterMap_set heldOf s.ws w (.pulled j) (.running j) hw
            refine ⟨hwf, hka, ?_, hnd, ?_⟩
            · intro x
              have h1 := hcnt x
              have h2 := hheld x
              simp only [cnt, heldOf] at *
              simp only [held] at *
              omega
            · intro hbad
              obtain ⟨_, hall⟩ := hsd hbad
              have hmem := List.get?_mem hw
              simp only [List.all_eq_true, decide_eq_true_eq] at hall
              cases hall _ hmem
  | finishWork w =>
      simp only [sysStep] at h
      cases hw : s.ws.get? w with
      | none => rw [hw] at h; simp at h
      | some wst =>
          rw [hw] at h
          cases wst with
          | idle => simp at h
          | pulled j2 => simp at h
          | exited => simp at h
          | running j =>
            cases h
            have hheld := count_filterMap_set heldOf s.ws w (.running j) .idle hw
            refine ⟨hwf, hka, ?_, hnd, ?_⟩
            · intro x
              have h1 := hcnt x
              have h2 := hheld x
              simp only [cnt, heldOf, Option.toList_some, Option.toList_none,
                List.count_append, List.count_cons, List.count_nil] at *
              simp only [held] at *
              by_cases hx : x = j <;> simp [hx] at * <;> omega
            · intro hbad
              obtain ⟨_, hall⟩ := hsd hbad
              have hmem := List.get?_mem hw
              simp only [List.all_eq_true, decide_eq_true_eq] at hall
              cases hall _ hmem
  | workerExit w =>
      simp only [sysStep] at h
      cases hw : s.ws.get? w with
      | none => rw [hw] at h; simp at h
      | some wst =>
          rw [hw] at h
          cases wst with
          | pulled j2 => simp at h
          | running j2 => simp at h
          | exited => simp at h
          | idle =>
            by_cases hc : s.keepalive = false
            · rw [if_pos hc] at h
              cases h
              have hheld := count_filterMap_set heldOf s.ws w .idle .exited hw
              refine ⟨hwf, hka, ?_, hnd, ?_⟩
              · intro x
                have h1 := hcnt x
                have h2 := hheld x
                simp only [cnt, heldOf, Option.toList_none, List.count_nil] at *
                simp only [held] at *
                omega
              · intro hbad
                obtain ⟨_, hall⟩ := hsd hbad
                have hmem := List.get?_mem hw
                simp only [List.all_eq_true, decide_eq_true_eq] at hall
                cases hall _ hmem
            · rw [if_neg hc] at h
              simp at h
  | waitRet =>
      simp only [sysStep] at h
      split at h
      case isFalse => exact absurd h (by simp)
      case isTrue hc =>
        cases h
        exact ⟨hwf, hka, hcnt, hnd, hsd⟩
  | reactivate =>
      simp only [sysStep] at h
      split at h
      case isFalse => exact absurd h (by simp)
      case isTrue hc =>
        cases h
        exact ⟨hwf, hka, hcnt, hnd, hsd⟩
  | shutdownStart =>
      simp only [sysStep] at h
      split at h
      case isFalse => exact absurd h (by simp)
      case isTrue hc =>
        cases h
        refine ⟨hwf, by simp, hcnt, hnd, ?_⟩
        intro hbad
        cases hbad
  | shutdownFinish =>
      simp only [sysStep] at h
      split at h
      case isFalse => exact absurd h (by simp)
      case isTrue hc =>
        obtain ⟨hshut, hall⟩ := hc
        cases h
        refine ⟨?_, ?_, ?_, hnd, ?_⟩
        · simp [jobqueue_clear_raw]
        · constructor
          · intro hk
            rw [hshut] at hka
            cases hka.mp hk
          · intro hbad
            cases hbad
        · intro x
          have h1 := hcnt x
          simp only [cnt, jobqueue_clear_raw, List.count_nil, List.count_append] at *
          omega
        · intro _
          exact ⟨rfl, hall⟩

theorem invA_run (evs : List Ev) (s s' : Sys) (h : runSys s evs = some s')
    (hi : InvA s) : InvA s' := by
  induction evs generalizing s with
  | nil => simp only [runSys, Option.some_inj] at h; cases h; exact hi
  | cons e es ih =>
      simp only [runSys] at h
      cases hs : sysStep s e with
      | none => rw [hs] at h; simp at h
      | some s1 =>
          rw [hs] at h
          simp only [Option.some_bind] at h
          exact ih s1 h (invA_step s s1 e hs hi)

/-! ### Model of `thpool_init` (claims C8, C10)

`thpool_init` is deterministic except for the outcomes of allocations,
pthread-object initializations and worker-thread creations; these
outcomes are supplied by an environment.  The function returns through
the labelled cleanup chain on any failure. -/

/-- The fields of `threadpool_config` that decide control flow:
`num_threads`, `work_num_max`, whether a `callback_arg_destructor` is
configured, and the current state of a user-provided passport (`none`
when the user did not provide one and the library allocates its own,
whose state starts at `THPOOL_UNBIND`). -/
structure Config where
  num_threads : Int
  work_num_max : Int
  hasDestructor : Bool
  passport : Option TState
deriving DecidableEq, Repr

/-- Success or failure of each fallible step inside `thpool_init`:
the pool allocation, the library passport allocation, the
`jobqueue_rwmutex` init, the two queue condvar inits, the TSD key
creation, the worker-array allocation, the idle mutex and condvar inits,
and per-index worker creation: `thrOk i` says whether `thread_init`
succeeded for worker `i` (thread struct allocation and `pthread_create`
both fine); when it failed, `thrMallocFail i` says which path it took —
`true` for the thread-struct `malloc` failure (which decrements
`callback_arg_refcount` twice, in the null-check branch and again at the
`unref_callback_arg` label), `false` for the `pthread_create` failure
(one decrement). -/
structure InitEnv where
  poolAlloc : Bool
  ppAlloc : Bool
  mAlloc : Bool
  condGet : Bool
  condPut : Bool
  keyOk : Bool
  thrArr : Bool
  idleM : Bool
  idleC : Bool
  thrOk : Nat → Bool
  thrMallocFail : Nat → Bool

/-- The data a successful `thpool_init` hands back: the pool state, the
bound passport, whether the passport is user owned, the stored
`num_threads` field (set before the creation loop, so it keeps the
requested count), and the final `callback_arg_refcount`. -/
structure PoolFull where
  core : Pool
  pp : Passport
  userOwnedPp : Bool
  numThreads : Nat
  refcount : Int
deriving Repr

/-- Result of `thpool_init`: the pool handle (`none` on failure), the
number of worker threads actually created during the call, and the value
this code path assigns to `errno` (`none` when the path does not assign
it). -/
structure InitResult where
  pool : Option PoolFull
  created : Nat
  err : Option Errno

/-- The worker-creation phase of `thpool_init` (the `for` loop over
`thread_init`, the zero-workers bailout, the drop of the init-owned
refcount reference, and the join until all created workers are alive):
`nt` is the sanitized `num_threads` (negative becomes `0`), `created`
counts the loop indices whose `thread_init` succeeded (the local
`num_threads` after its per-failure decrements), `created = 0` takes the
cleanup chain and returns a null pool, and otherwise the pool comes up
with `num_threads_alive = created` and passport `ALIVE`.  When a
destructor is configured the counter starts at `num_threads + 1` and,
assuming no worker has released yet, ends at `num_threads + 1` minus two
per malloc-failed creation (the double decrement in `thread_init`) minus
one per `pthread_create`-failed creation minus one for the init drop,
i.e. `created` minus the number of malloc-failed creations. -/
@[irreducible] def thpool_init_threads (c : Config) (env : InitEnv) (userOwned : Bool) : InitResult :=
  let nt : Nat := (if c.num_threads < 0 then 0 else c.num_threads).toNat
  let created : Nat := ((List.range nt).filter (fun i => env.thrOk i)).length
  let mallocFails : Nat :=
    ((List.range nt).filter (fun i => !env.thrOk i && env.thrMallocFail i)).length
  if created = 0 then ⟨none, 0, none⟩
  else
    ⟨some { core := { q := jobqueue_init c.work_num_max, keepalive := true,
                      active := true, working := 0, alive := (created : Int) },
            pp := { state := .ALIVE, apiUse := 0 },
            userOwnedPp := userOwned, numThreads := nt,
            refcount := if c.hasDestructor then (created : Int) - (mallocFails : Int)
                        else 0 },
      created, none⟩

/-- Models `thpool_init`, following the source order: null-config check,
pool allocation, passport allocation or adoption, the `UNBIND -> ALIVE`
bind CAS (failure is a rebind, `EINVAL`),
mutex/condvar/key/array initializations with their cleanup chains, and
then the worker-creation phase `thpool_init_threads`. -/
def thpool_init (conf : Option Config) (env : InitEnv) : InitResult :=
  match conf with
  | none => ⟨none, 0, some .EINVAL⟩
  | some c =>
      if ¬ env.poolAlloc then ⟨none, 0, none⟩ else
      match (match c.passport with
             | none => if env.ppAlloc then some (TState.UNBIND, false) else none
             | some st => some (st, true)) with
      | none => ⟨none, 0, none⟩
      | some (pst, userOwned) =>
          if ¬ pst = .UNBIND then ⟨none, 0, some .EINVAL⟩ else
          if ¬ env.mAlloc then ⟨none, 0, some .EOTHER⟩ else
          if ¬ env.condGet then ⟨none, 0, some .EOTHER⟩ else
          if ¬ env.condPut then ⟨none, 0, some .EOTHER⟩ else
          if ¬ env.keyOk then ⟨none, 0, some .EOTHER⟩ else
          if ¬ env.thrArr then ⟨none, 0, none⟩ else
          if ¬ env.idleM then ⟨none, 0, some .EOTHER⟩ else
          if ¬ env.idleC then ⟨none, 0, some .EOTHER⟩ else
          thpool_init_threads c env userOwned

/-! ### Hook-argument refcount protocol (claim C9)

When a `callback_arg_destructor` is configured, `thpool_init` starts the
refcount at `num_threads + 1`: one reference per planned worker and one
for init itself.  `thread_init` has two failure paths, and they release
differently: when `pthread_create` fails, control jumps to
`cleanup_thread` and falls through to the `unref_callback_arg` label,
which performs one bare `atomic_fetch_sub` (no old-value-1 check, the
destructor is never invoked there); when the `malloc` of the thread
struct fails, the code performs a bare `atomic_fetch_sub` inside the
null-check branch and then ALSO jumps to `unref_callback_arg`, so this
path decrements the counter twice.  (The comment at the label asserts
the count can never reach zero there; the double decrement can falsify
that.)  A created worker holds `callback_arg_ref_holding = true` and
releases at most once through `thpool_thread_unref_callback_arg` —
explicitly from a hook or task, or implicitly from `thread_destroy`
during pool destroy — which clears the flag and, when the fetched old
value was `1`, invokes the destructor.  `thpool_init` drops its own
reference (with the same old-value-1 check) only after the loop, and
only when at least one worker was created. -/

/-- State of the refcount protocol: the atomic
`callback_arg_refcount`, whether init still holds its reference, how
many worker creations are still to be attempted, the
`callback_arg_ref_holding` flag of each created worker, and the ghost
count of destructor invocations. -/
structure RcState where
  refcount : Int
  initHolds : Bool
  pending : Nat
  workers : List Bool
  calls : Nat
deriving DecidableEq, Repr

/-- Events of the refcount protocol, interleaved in any order consistent
with the guards: a worker creation fails in the `malloc` of the thread
struct (`thread_init` decrements twice: in the null-check branch and
again at the `unref_callback_arg` label reached by `goto`), a worker
creation fails in `pthread_create` (one decrement, at the label), a
worker creation succeeds (worker starts holding), init drops its
reference (only after the loop, with a created worker), a worker release
via `thpool_thread_unref_callback_arg` (from user code or from
`thread_destroy`; a repeated release on the same worker is a no-op
because the holding flag is already clear). -/
inductive RcEv where
  | mallocFail
  | createFail
  | createOk
  | initDrop
  | unref (w : Nat)
deriving DecidableEq, Repr

/-- One step of the refcount protocol.  The two bare `atomic_fetch_sub`
calls of the malloc-failure path run back to back inside `thread_init`
and neither checks the old value or invokes the destructor, so they are
taken as one step subtracting `2`. -/
def rcStep (s : RcState) : RcEv → Option RcState
  | .mallocFail =>
      if 0 < s.pending then
        some { s with pending := s.pending - 1, refcount := s.refcount - 2 }
      else none
  | .createFail =>
      if 0 < s.pending then
        some { s with pending := s.pending - 1, refcount := s.refcount - 1 }
      else none
  | .createOk =>
      if 0 < s.pending then
        some { s with pending := s.pending - 1, workers := s.workers ++ [true] }
      else none
  | .initDrop =>
      if s.initHolds = true ∧ s.pending = 0 ∧ ¬ s.workers = [] then
        some { s with initHolds := false, refcount := s.refcount - 1,
                      calls := if s.refcount = 1 then s.calls + 1 else s.calls }
      else none
  | .unref w =>
      match s.workers.get? w with
      | some true =>
          some { s with workers := s.workers.set w false, refcount := s.refcount - 1,
                        calls := if s.refcount = 1 then s.calls + 1 else s.calls }
      | some false => some s
      | none => none

/-- Run a list of refcount events. -/
def rcRun (s : RcState) : List RcEv → Option RcState
  | [] => some s
  | e :: es => (rcStep s e).bind (fun s' => rcRun s' es)

/-- Initial refcount state for a pool configured with a destructor and
`n` planned workers: refcount `n + 1`, init holding, `n` creations
pending, no worker yet, no destructor call yet. -/
def rcInit (n : Nat) : RcState :=
  { refcount := (n : Int) + 1, initHolds := true, pending := n, workers := [], calls := 0 }

/-! ### Claim theorems -/

theorem held_replicate_idle (n : Nat) : held (List.replicate n .idle) = [] := by
  induction n with
  | zero => rfl
  | succ n ih =>
      simp only [List.replicate, held, List.filterMap_cons, heldOf]
      exact ih

theorem invA_init (n : Nat) (ml : Int) : InvA (initSys n ml) := by
  refine ⟨?_, ?_, ?_, ?_, ?_⟩
  · simp [initSys, jobqueue_init]
  · simp [initSys]
  · intro j
    simp [initSys, cnt, jobqueue_init, held_replicate_idle]
  · simp [initSys]
  · intro hbad
    simp [initSys] at hbad

theorem invB_init (n : Nat) (ml : Int) : InvB (initSys n ml) := by
  refine ⟨?_, ?_, ?_⟩ <;> simp [initSys, jobqueue_init] <;> split_ifs <;> omega

/-- Claim C1, counterexample: the claim "no accepted job is lost" fails.
From a pool with one worker, a submission is accepted by the put critical
section (`putOk 0`), then `thpool_shutdown_safe_inner` runs before any
worker pulls the job: it flips `threads_keepalive`, the woken worker sees
the flag and exits, and the drain destroys the still-queued job.  At
shutdown completion the job is in the discarded log, not the executed
log: its task function was never invoked, although `add_work` returned
`0` before the shutdown completed. -/
theorem claim_C1_counterexample :
    (runSys (initSys 1 0)
        [Ev.putOk 0, Ev.shutdownStart, Ev.workerExit 0, Ev.shutdownFinish]).map
      (fun s => (s.pstate, s.accepted, s.executed, s.discarded))
      = some (.SHUTDOWN, [0], [], [0]) := by
  decide

/-- Claim C1, amended: every job accepted by `add_work` is executed at
most once, and once a shutdown has completed every accepted job has
either been executed exactly once or been destroyed unexecuted exactly
once by the shutdown drain (never both).  In every state reachable from a
fresh pool, the executed log holds an accepted job at most once, and in a
`SHUTDOWN` state the executed and discarded logs together hold it exactly
once. -/
theorem claim_C1_at_most_once (n : Nat) (ml : Int) (evs : List Ev) (s : Sys)
    (h : runSys (initSys n ml) evs = some s) :
    (∀ j ∈ s.accepted, s.executed.count j ≤ 1) ∧
    (s.pstate = .SHUTDOWN →
      ∀ j ∈ s.accepted, s.executed.count j + s.discarded.count j = 1) := by
  have hinv : InvA s := invA_run evs (initSys n ml) s h (invA_init n ml)
  obtain ⟨hwf, hka, hcnt, hnd, hsd⟩ := hinv
  constructor
  · intro j hj
    have h1 := hcnt j
    have hacc : s.accepted.count j = 1 := List.count_eq_one_of_mem hnd hj
    simp only [cnt] at h1
    omega
  · intro hshut j hj
    obtain ⟨hqnil, hall⟩ := hsd hshut
    have hheld := held_nil_of_all_exited s.ws hall
    have h1 := hcnt j
    have hacc : s.accepted.count j = 1 := List.count_eq_one_of_mem hnd hj
    simp only [cnt, hqnil, hheld, List.count_nil] at h1
    omega

/-- The state after accepting job 0 on a fresh single-worker pool. -/
def sC1w : Sys :=
  { q := { jobs := [0], len := 1, max_len := 0 }, keepalive := true, active := true,
    working := 0, pstate := .ALIVE, ws := [.idle],
    accepted := [0], executed := [], discarded := [] }

theorem claim_C1_at_most_once_witness : sC1w.executed.count 0 ≤ 1 :=
  (claim_C1_at_most_once 1 0 [Ev.putOk 0] sC1w (by decide)).1 0 (by decide)

theorem wait_inner_post (own : Bool) (s : Pool) (r : Int) (e : Option Errno) (s' : Pool)
    (h : thpool_wait_inner own s = some (r, e, s')) (hr : r = 0) :
    s'.q.len = 0 ∧ s'.working = 0 ∧ s'.active = false := by
  unfold thpool_wait_inner at h
  split_ifs at h with h1 h2
  · simp only [Option.some_inj] at h
    cases h
    cases hr
  · simp only [Option.some_inj] at h
    obtain ⟨h2a, h2b⟩ := h2
    cases h
    exact ⟨h2a, h2b, rfl⟩

theorem easy_gate_cases (inner : Pool → Option (Int × Option Errno × Pool))
    (s : Pool) (pp : Passport) (r : GR)
    (h : easy_api_safe_inner inner s pp = some r) :
    r.tr = [.incUse, .decUse] ∧ r.pp.apiUse = pp.apiUse ∧ r.pp.state = pp.state ∧
    ((pp.state = .ALIVE ∧ inner s = some (r.ret, r.err, r.pool)) ∨
     (¬ pp.state = .ALIVE ∧ r.ret = -1 ∧ r.err = some .EINVAL ∧ r.pool = s)) := by
  simp only [easy_api_safe_inner] at h
  split_ifs at h with hstate
  · cases hin : inner s with
    | none => rw [hin] at h; simp at h
    | some v =>
        obtain ⟨rv, ev, sv⟩ := v
        rw [hin] at h
        simp only [Option.some_inj] at h
        cases h
        exact ⟨rfl, by dsimp only; omega, rfl, Or.inl ⟨hstate, rfl⟩⟩
  · simp only [Option.some_inj] at h
    cases h
    exact ⟨rfl, by dsimp only; omega, rfl, Or.inr ⟨hstate, rfl, rfl, rfl⟩⟩

/-- Claim C2: whenever `thpool_wait` returns `0`, the job queue length is
`0`, `num_threads_working` is `0` and `threads_active` is false.  Stated
for the final loop iteration of `thpool_wait_inner` (the function model),
for the `waitRet` step of the interleaving model (both checks and the
`threads_active` store form one queue-mutex critical section), and for
the full public `thpool_wait` through the passport gate. -/
theorem claim_C2_wait_postcondition :
    (∀ (own : Bool) (s : Pool) (r : Int) (e : Option Errno) (s' : Pool),
        thpool_wait_inner own s = some (r, e, s') → r = 0 →
        s'.q.len = 0 ∧ s'.working = 0 ∧ s'.active = false) ∧
    (∀ (s s' : Sys), sysStep s .waitRet = some s' →
        s'.q.len = 0 ∧ s'.working = 0 ∧ s'.active = false) ∧
    (∀ (own : Bool) (s : Pool) (pp : Passport) (r : Int) (e : Option Errno)
        (st : Option (Pool × Passport)),
        thpool_wait (some (own, s, pp)) = some (r, e, st) → r = 0 →
        st.map (fun p => (p.1.q.len, p.1.working, p.1.active)) = some (0, 0, false)) := by
  refine ⟨?_, ?_, ?_⟩
  · exact wait_inner_post
  · intro s s' h
    simp only [sysStep] at h
    split at h
    case isFalse => exact absurd h (by simp)
    case isTrue hc =>
      cases h
      exact ⟨hc.2.1, hc.2.2, rfl⟩
  · intro own s pp r e st h hr
    subst hr
    simp only [thpool_wait] at h
    cases hsi : thpool_wait_safe_inner own s pp with
    | none => rw [hsi] at h; simp at h
    | some g =>
        rw [hsi] at h
        simp only [Option.map_some', Option.some_inj, Prod.mk.injEq] at h
        obtain ⟨hret, _, hst⟩ := h
        have hsi' : easy_api_safe_inner (thpool_wait_inner own) s pp = some g := hsi
        obtain ⟨_, _, _, hcase⟩ := easy_gate_cases (thpool_wait_inner own) s pp g hsi'
        cases hcase with
        | inl hc =>
            obtain ⟨_, hin⟩ := hc
            obtain ⟨hq, hwk, hact⟩ :=
              wait_inner_post own s g.ret g.err g.pool hin hret
            rw [← hst]
            simp [hq, hwk, hact]
        | inr hc =>
            obtain ⟨_, hbad, _⟩ := hc
            rw [hret] at hbad
            exact absurd hbad (by decide)

/-- A quiesced empty pool: queue empty, nothing working. -/
def poolC2 : Pool :=
  { q := jobqueue_init 0, keepalive := true, active := true, working := 0, alive := 1 }

theorem claim_C2_wait_postcondition_witness :
    (Pool.mk (jobqueue_init 0) true false 0 1).q.len = 0 ∧
    (Pool.mk (jobqueue_init 0) true false 0 1).working = 0 ∧
    (Pool.mk (jobqueue_init 0) true false 0 1).active = false :=
  claim_C2_wait_postcondition.1 false poolC2 0 none
    (Pool.mk (jobqueue_init 0) true false 0 1) (by decide) rfl

/-- Claim C4: with a positive queue bound `max_len`, the invariant
`len ≤ max_len` holds in every reachable state: the put critical section
pushes only after establishing `len < max_len`, and the get critical
section only removes. -/
theorem claim_C4_bounded_queue (n : Nat) (ml : Int) (evs : List Ev) (s : Sys)
    (h : runSys (initSys n ml) evs = some s) (hpos : 0 < s.q.max_len) :
    s.q.len ≤ s.q.max_len :=
  (invB_run evs (initSys n ml) s h (invB_init n ml)).2.2 hpos

/-- The state after accepting job 0 on a single-worker pool bounded at 2. -/
def sC4w : Sys :=
  { q := { jobs := [0], len := 1, max_len := 2 }, keepalive := true, active := true,
    working := 0, pstate := .ALIVE, ws := [.idle],
    accepted := [0], executed := [], discarded := [] }

theorem claim_C4_bounded_queue_witness : sC4w.q.len ≤ sC4w.q.max_len :=
  claim_C4_bounded_queue 1 2 [Ev.putOk 0] sC4w (by decide) (by decide)

/-- Claim C5: when `threads_keepalive` is false at the decision point,
`thpool_put_job` returns `-1` with `ECANCELED` and the queue (indeed the
whole pool state) is unchanged, and `thpool_get_job` returns a null job
with `ECANCELED` and the state is unchanged. -/
theorem claim_C5_canceled (s : Pool) (j : Nat) (h : s.keepalive = false) :
    thpool_put_job s j = some (-1, some .ECANCELED, s) ∧
    thpool_get_job s = some (none, some .ECANCELED, s) := by
  unfold thpool_put_job thpool_get_job
  simp [h]

theorem claim_C5_canceled_witness :
    thpool_put_job (Pool.mk (jobqueue_init 0) false false 0 0) 7
        = some (-1, some .ECANCELED, Pool.mk (jobqueue_init 0) false false 0 0) ∧
    thpool_get_job (Pool.mk (jobqueue_init 0) false false 0 0)
        = some (none, some .ECANCELED, Pool.mk (jobqueue_init 0) false false 0 0) :=
  claim_C5_canceled (Pool.mk (jobqueue_init 0) false false 0 0) 7 rfl

/-- A pool already shut down, and its passport in state `SHUTDOWN`. -/
def poolC6 : Pool :=
  { q := jobqueue_init 0, keepalive := false, active := false, working := 0, alive := 0 }

/-- Passport of `poolC6`. -/
def ppC6 : Passport := { state := .SHUTDOWN, apiUse := 0 }

/-- Claim C6, counterexample: `thpool_shutdown` is among the listed
operations, but `thpool_shutdown_safe_inner` never touches the passport
counter `num_api_use` — it is not built on the
`DEFINE_THPOOL_EASY_API_SAFE_INNER` gate.  Called (from a non-pool
thread) with the passport not in `ALIVE`, it does return `-1` with
`EINVAL` as the claim says, but its trace of `num_api_use` accesses is
empty: it performs zero increments, refuting "it increments the
passport's num_api_use counter" for shutdown. -/
theorem claim_C6_counterexample :
    (thpool_shutdown_safe_inner false poolC6 ppC6).map
        (fun r => (r.ret, r.err, r.tr.count .incUse, r.tr))
      = some (-1, some .EINVAL, 0, []) := by
  decide

/-- Claim C6, amended: the gated operations `wait`, `reactivate`,
`num_threads_working` (instances of `easy_api_safe_inner`, the
`DEFINE_THPOOL_EASY_API_SAFE_INNER` macro) and `add_work` increment
`num_api_use`, skip the inner operation and return `-1` with `EINVAL`
when the passport state is not `ALIVE`, and decrement `num_api_use`
before returning, so the counter is net unchanged.  `shutdown`, however,
is not gated through `num_api_use`: it never touches the counter (its
access trace is empty); it still rejects a non-`ALIVE` passport with
`-1` and `EINVAL` (via the failed strong CAS) and leaves the state
unchanged, and the counter is trivially net unchanged. -/
theorem claim_C6_gate_amended :
    (∀ (inner : Pool → Option (Int × Option Errno × Pool)) (s : Pool) (pp : Passport)
        (r : GR), easy_api_safe_inner inner s pp = some r →
        r.tr = [.incUse, .decUse] ∧ r.pp.apiUse = pp.apiUse ∧
        (¬ pp.state = .ALIVE → r.ret = -1 ∧ r.err = some .EINVAL ∧ r.pool = s)) ∧
    (∀ (mallocOk : Bool) (j : Nat) (s : Pool) (pp : Passport) (r : GR),
        thpool_add_work_safe_inner mallocOk j s pp = some r →
        r.tr = [.incUse, .decUse] ∧ r.pp.apiUse = pp.apiUse ∧
        (¬ pp.state = .ALIVE → r.ret = -1 ∧ r.err = some .EINVAL ∧ r.pool = s)) ∧
    (∀ (own : Bool) (s : Pool) (pp : Passport) (r : GR),
        thpool_shutdown_safe_inner own s pp = some r →
        r.tr = [] ∧ r.pp.apiUse = pp.apiUse ∧
        (own = false → ¬ pp.state = .ALIVE →
          r.ret = -1 ∧ r.err = some .EINVAL ∧ r.pool = s ∧ r.pp = pp)) := by
  have hgate : ∀ (inner : Pool → Option (Int × Option Errno × Pool)) (s : Pool)
      (pp : Passport) (r : GR), easy_api_safe_inner inner s pp = some r →
      r.tr = [.incUse, .decUse] ∧ r.pp.apiUse = pp.apiUse ∧
      (¬ pp.state = .ALIVE → r.ret = -1 ∧ r.err = some .EINVAL ∧ r.pool = s) := by
    intro inner s pp r h
    obtain ⟨htr, hapi, _, hcase⟩ := easy_gate_cases inner s pp r h
    refine ⟨htr, hapi, ?_⟩
    intro hns
    cases hcase with
    | inl hc => exact absurd hc.1 hns
    | inr hc => exact ⟨hc.2.1, hc.2.2.1, hc.2.2.2⟩
  refine ⟨hgate, ?_, ?_⟩
  · intro mallocOk j s pp r h
    exact hgate (thpool_add_work_inner mallocOk j) s pp r h
  · intro own s pp r h
    unfold thpool_shutdown_safe_inner at h
    split_ifs at h with h1 h2 h3
    · simp only [Option.some_inj] at h
      cases h
      exact ⟨rfl, rfl, fun hown _ => by cases hown; exact absurd h1 (by simp)⟩
    · simp only [Option.some_inj] at h
      cases h
      exact ⟨rfl, rfl, fun _ hns => absurd h2 hns⟩
    · simp only [Option.some_inj] at h
      cases h
      exact ⟨rfl, rfl, fun _ _ => ⟨rfl, rfl, rfl, rfl⟩⟩

/-- Result of the gated `thpool_wait_safe_inner` on a shut-down passport
with two other API calls in flight. -/
def grC6w : GR :=
  { ret := -1, err := some .EINVAL, pool := poolC6,
    pp := { state := .SHUTDOWN, apiUse := 2 }, tr := [.incUse, .decUse] }

theorem claim_C6_gate_amended_witness :
    grC6w.tr = [PEv.incUse, PEv.decUse] ∧
    grC6w.pp.apiUse = (Passport.mk TState.SHUTDOWN 2).apiUse ∧
    (grC6w.ret = -1 ∧ grC6w.err = some Errno.EINVAL ∧ grC6w.pool = poolC6) := by
  have h := claim_C6_gate_amended.1 (thpool_wait_inner false) poolC6
    (Passport.mk TState.SHUTDOWN 2) grC6w (by decide)
  exact ⟨h.1, h.2.1, h.2.2 (by decide)⟩

/-- Claim C7: `wait`, `shutdown` and `destroy` called from a thread owned
by the target pool (the TSD slot for the pool key equals the pool
pointer, `isOwner = true`) return `-1` with `EINVAL` and change nothing:
the pool is returned as it was and the passport state and counter are net
unchanged (for `wait` the counter is bumped and restored by the gate;
`shutdown` and `destroy` reject before touching anything). -/
theorem claim_C7_self_call_rejected (s : Pool) (pp : Passport) :
    (∀ r : GR, thpool_wait_safe_inner true s pp = some r →
        r.ret = -1 ∧ r.err = some .EINVAL ∧ r.pool = s ∧
        r.pp.apiUse = pp.apiUse ∧ r.pp.state = pp.state) ∧
    (∀ r : GR, thpool_shutdown_safe_inner true s pp = some r →
        r.ret = -1 ∧ r.err = some .EINVAL ∧ r.pool = s ∧ r.pp = pp) ∧
    (∀ r : DR, thpool_destroy_safe_inner true s pp = some r →
        r.ret = -1 ∧ r.err = some .EINVAL ∧ r.pool = some s ∧ r.pp = pp) := by
  refine ⟨?_, ?_, ?_⟩
  · intro r h
    have h' : easy_api_safe_inner (thpool_wait_inner true) s pp = some r := h
    obtain ⟨_, hapi, hstate, hcase⟩ := easy_gate_cases (thpool_wait_inner true) s pp r h'
    cases hcase with
    | inl hc =>
        obtain ⟨_, hin⟩ := hc
        unfold thpool_wait_inner at hin
        simp only [if_true, if_pos, Option.some_inj, Prod.mk.injEq] at hin
        exact ⟨hin.1.symm, hin.2.1.symm, hin.2.2.symm, hapi, hstate⟩
    | inr hc =>
        exact ⟨hc.2.1, hc.2.2.1, hc.2.2.2, hapi, hstate⟩
  · intro r h
    unfold thpool_shutdown_safe_inner at h
    rw [if_pos rfl] at h
    simp only [Option.some_inj] at h
    cases h
    exact ⟨rfl, rfl, rfl, rfl⟩
  · intro r h
    unfold thpool_destroy_safe_inner at h
    rw [if_pos rfl] at h
    simp only [Option.some_inj] at h
    cases h
    exact ⟨rfl, rfl, rfl, rfl⟩

theorem claim_C7_self_call_rejected_witness :
    (GR.mk (-1) (some .EINVAL) poolC6 (Passport.mk .ALIVE 0) [.incUse, .decUse]).ret = -1 ∧
    (GR.mk (-1) (some .EINVAL) poolC6 (Passport.mk .ALIVE 0) [.incUse, .decUse]).err
      = some Errno.EINVAL ∧
    (GR.mk (-1) (some .EINVAL) poolC6 (Passport.mk .ALIVE 0) [.incUse, .decUse]).pool
      = poolC6 ∧
    (GR.mk (-1) (some .EINVAL) poolC6 (Passport.mk .ALIVE 0) [.incUse, .decUse]).pp.apiUse
      = (Passport.mk TState.ALIVE 0).apiUse ∧
    (GR.mk (-1) (some .EINVAL) poolC6 (Passport.mk .ALIVE 0) [.incUse, .decUse]).pp.state
      = (Passport.mk TState.ALIVE 0).state :=
  (claim_C7_self_call_rejected poolC6 (Passport.mk .ALIVE 0)).1
    (GR.mk (-1) (some .EINVAL) poolC6 (Passport.mk .ALIVE 0) [.incUse, .decUse]) (by decide)

set_option maxHeartbeats 3200000

set_option maxHeartbeats 200000

/-- Claim C9, failing run: the code does not keep the exactly-once
contract, because the malloc-failure path of `thread_init` decrements
`callback_arg_refcount` twice (once in the null-check branch, once more
at the `unref_callback_arg` label reached by the `goto`), both times
without the old-value-1 check that invokes the destructor.  Concretely:
`num_threads = 2` with a destructor configured starts the count at `3`;
worker 0 is created and releases its reference in its start hook
(checked decrement, `3 -> 2`, no invocation); the `malloc` for worker 1
fails (`2 -> 0` by the two bare decrements, no invocation); init then
drops its own reference (checked decrement, old value `0`, not `1`, so
no invocation; the counter ends at `-1`).  Every reference has been
surrendered — init dropped, nothing pending, no worker holding — yet the
destructor was invoked zero times, not exactly once.  The run also
falsifies the source comment at the label claiming the count can never
reach zero there. -/
theorem claim_C9_destructor_lost :
    (rcRun (rcInit 2)
        [RcEv.createOk, RcEv.unref 0, RcEv.mallocFail, RcEv.initDrop]).map
      (fun s => (s.initHolds, s.pending, s.workers.count true, s.refcount, s.calls))
      = some (false, 0, 0, -1, 0) := by
  decide

/-- Claim C10: every public operation rejects a null handle before
touching anything: `thpool_init` with a null config returns a null pool
with `errno = EINVAL`, and `thpool_wait`, `thpool_reactivate`,
`thpool_shutdown`, `thpool_destroy`, `thpool_num_threads_working` and
`thpool_add_work` with a null pool handle return `-1` with
`errno = EINVAL` and no pool state is dereferenced or produced. -/
theorem claim_C10_null_rejected (env : InitEnv) :
    (thpool_init none env).pool = none ∧
    (thpool_init none env).err = some .EINVAL ∧
    thpool_wait none = some (-1, some .EINVAL, none) ∧
    thpool_reactivate none = some (-1, some .EINVAL, none) ∧
    thpool_shutdown none = some (-1, some .EINVAL, none) ∧
    thpool_destroy none = some (-1, some .EINVAL, none) ∧
    thpool_num_threads_working none = some (-1, some .EINVAL, none) ∧
    (∀ (mallocOk : Bool) (j : Nat),
      thpool_add_work none mallocOk j = some (-1, some .EINVAL, none)) :=
  ⟨rfl, rfl, rfl, rfl, rfl, rfl, rfl, fun _ _ => rfl⟩

end ThreadPool
